import Mathlib

/-!
# Verification of the `makes` CLI orchestrator (`src/cli/main/__main__.py`)

This file gives a shallow embedding of the source-acquisition and
build-invocation pipeline of the `makes` command line tool and proves
properties of it.  The Python program shells out to external processes
(`git`, `nix`, `cachix`, the action script) and touches the filesystem;
the embedding makes those effects explicit:

* the filesystem is a finite association map from path strings to file
  contents (directories are implicit: they exist when some file lives
  under them);
* the outcome of each external subprocess (exit code, reported path
  lists) is an explicit parameter of the embedded function;
* environment variables and feature flags are fields of explicit
  configuration records, resolved once and threaded as parameters;
* logging is recorded as data (lists of lines / boolean flags) instead
  of being written to stderr;
* `raise` / `SystemExit` control flow becomes `Except` / explicit
  result records.

Python builtins that the program relies on (`urllib.parse.quote_plus`,
greedy `re` matching, `sorted`, `set`) are embedded faithfully,
including UTF-8 encoding of characters for percent-encoding.
-/

set_option autoImplicit false

namespace Makes

/-! ## Filesystem model

A filesystem fragment is an association list from (relative) path
strings to file contents.  `lookup` returns the first entry for a key,
`setFile` overwrites (as `shutil.copy` does), `eraseFile` removes a
file (as `os.remove` does). -/

/-- A set of files: path ↦ content. -/
abbrev FS := List (String × String)

/-- Content of file `p`, if it exists. -/
def findFile (fs : FS) (p : String) : Option String :=
  match fs with
  | [] => none
  | (q, v) :: rest => if q = p then some v else findFile rest p

/-- Overwrite (or create) file `p` with content `v` — `shutil.copy src dest`. -/
def setFile (fs : FS) (p : String) (v : String) : FS :=
  (p, v) :: fs.filter (fun e => e.1 ≠ p)

/-- Delete file `p` — `os.remove dest` (the caller must know `p` exists). -/
def eraseFile (fs : FS) (p : String) : FS :=
  fs.filter (fun e => e.1 ≠ p)

@[simp] theorem findFile_nil (p : String) : findFile [] p = none := rfl

theorem findFile_cons (q v p) (rest : FS) :
    findFile ((q, v) :: rest) p = if q = p then some v else findFile rest p := rfl

theorem findFile_setFile_self (fs : FS) (p v) : findFile (setFile fs p v) p = some v := by
  simp [setFile, findFile]

theorem findFile_filter_ne {fs : FS} {p : String} (f : String × String → Bool)
    (hf : ∀ v, f (p, v) = true) : findFile (fs.filter f) p = findFile fs p := by
  induction fs with
  | nil => rfl
  | cons e rest ih =>
    obtain ⟨q, v⟩ := e
    by_cases he : q = p
    · subst he
      rw [List.filter, hf v]
      simp [findFile_cons]
    · rw [List.filter]
      cases hq : f (q, v) with
      | true => rw [findFile_cons, if_neg he, ih, findFile_cons, if_neg he]
      | false => rw [ih, findFile_cons, if_neg he]

theorem findFile_setFile_ne (fs : FS) {p q : String} (v) (h : p ≠ q) :
    findFile (setFile fs p v) q = findFile fs q := by
  unfold setFile
  rw [findFile_cons, if_neg h]
  exact findFile_filter_ne _ (fun w => by simp [Ne.symm h])

theorem findFile_eraseFile_self (fs : FS) (p : String) : findFile (eraseFile fs p) p = none := by
  induction fs with
  | nil => rfl
  | cons e rest ih =>
    obtain ⟨q, v⟩ := e
    unfold eraseFile at ih ⊢
    rw [List.filter]
    by_cases hq : q = p
    · simpa [hq] using ih
    · have hd : decide (q ≠ p) = true := by simp [hq]
      rw [hd, findFile_cons, if_neg hq]
      exact ih

theorem findFile_eraseFile_ne (fs : FS) {p q : String} (h : p ≠ q) :
    findFile (eraseFile fs p) q = findFile fs q := by
  unfold eraseFile
  exact findFile_filter_ne _ (fun w => by simp [Ne.symm h])

/-- Lookup distributes over append: the left fragment wins. -/
theorem findFile_append (a b : FS) (p : String) :
    findFile (a ++ b) p = (findFile a p).orElse (fun _ => findFile b p) := by
  induction a with
  | nil => simp [findFile]
  | cons e rest ih =>
    obtain ⟨q, v⟩ := e
    by_cases hq : q = p <;> simp [findFile_cons, hq, ih]

/-! ## `urllib.parse.quote_plus`

`quote_plus` percent-encodes the UTF-8 bytes of a string.  Bytes that
are ASCII letters, digits, or one of `_ . - ~` pass through; a space
becomes `+`; every other byte becomes `%XX` with uppercase hex. -/

/-- UTF-8 encoding of one character (code point), as a list of byte values. -/
def utf8Bytes (c : Char) : List Nat :=
  let n := c.toNat
  if n < 0x80 then [n]
  else if n < 0x800 then [0xC0 + n / 0x40, 0x80 + n % 0x40]
  else if n < 0x10000 then
    [0xE0 + n / 0x1000, 0x80 + n / 0x40 % 0x40, 0x80 + n % 0x40]
  else
    [0xF0 + n / 0x40000, 0x80 + n / 0x1000 % 0x40, 0x80 + n / 0x40 % 0x40, 0x80 + n % 0x40]

/-- UTF-8 encoding of a whole string, as a list of byte values. -/
def strBytes (s : String) : List Nat :=
  (s.data.map utf8Bytes).flatten

/-- Bytes `urllib.parse.quote` never escapes: ASCII alphanumerics and `_.-~`. -/
def isUrlSafe (b : Nat) : Bool :=
  (0x41 ≤ b && b ≤ 0x5A) || (0x61 ≤ b && b ≤ 0x7A) || (0x30 ≤ b && b ≤ 0x39) ||
    b = 0x5F || b = 0x2E || b = 0x2D || b = 0x7E

/-- Uppercase hex digit for a value `< 16`. -/
def hexDigit (n : Nat) : Char :=
  if n < 10 then Char.ofNat (0x30 + n) else Char.ofNat (0x41 + n - 10)

/-- `quote_plus` encoding of a single byte. -/
def quoteByte (b : Nat) : List Char :=
  if isUrlSafe b then [Char.ofNat b]
  else if b = 0x20 then ['+']
  else ['%', hexDigit (b / 16), hexDigit (b % 16)]

/-- `url_quote = urllib.parse.quote_plus` (the alias used by the program). -/
def url_quote (s : String) : String :=
  ⟨((strBytes s).map quoteByte).flatten⟩

/-! ## Reference parsing (`_clone_src_github`, `_clone_src_gitlab`)

Both functions match the source string against the Python regex
`^<host>:(?P<owner>.*)/(?P<repo>.*)@(?P<rev>.*)$` with `re.match`.
Since `.*` is greedy, `owner` extends to the last `/` that still leaves
an `@` to its right, and `repo` then extends to the last `@`; i.e. the
split is at the last `@` of the string and at the last `/` before it.
`.` does not match a newline and `$` also matches just before one
trailing newline, so the regex succeeds exactly when, after stripping
one trailing newline, the remainder is newline-free and contains the
two separators. -/

/-- `takeAfter? pre s = some rest` iff `s = pre ++ rest`: the anchored match
of the literal part `^<host>:` of the regex. -/
def takeAfter? : List Char → List Char → Option (List Char)
  | [], s => some s
  | _ :: _, [] => none
  | p :: ps, c :: cs => if p = c then takeAfter? ps cs else none

/-- Split a character list at the LAST occurrence of `c`:
`splitLast c l = some (a, b)` iff `l = a ++ c :: b` and `c ∉ b`. -/
def splitLast (c : Char) : List Char → Option (List Char × List Char)
  | [] => none
  | x :: xs =>
    match splitLast c xs with
    | some (a, b) => some (x :: a, b)
    | none => if x = c then some ([], xs) else none

/-- Greedy match of `(?P<owner>.*)/(?P<repo>.*)@(?P<rev>.*)$` against the
part of the source string after the `<host>:` prefix. -/
def matchRepoRef (rest : List Char) : Option (List Char × List Char × List Char) :=
  let rest := if rest.getLast? = some '\n' then rest.dropLast else rest
  if '\n' ∈ rest then none
  else
    match splitLast '@' rest with
    | none => none
    | some (pre, rev) =>
      match splitLast '/' pre with
      | none => none
      | some (owner, repo) => some (owner, repo, rev)

/-- `_clone_src_github`: parse `github:owner/repo@rev`, percent-encode each
component, and return `(cache_key, remote, rev)`. -/
def _clone_src_github (src : String) : Option (String × String × String) :=
  match takeAfter? "github:".data src.data with
  | none => none
  | some rest =>
    match matchRepoRef rest with
    | none => none
    | some (owner₀, repo₀, rev₀) =>
      let owner := url_quote ⟨owner₀⟩
      let repo := url_quote ⟨repo₀⟩
      let rev := url_quote ⟨rev₀⟩
      let remote := "https://github.com/" ++ owner ++ "/" ++ repo
      let cache_key := "github-" ++ owner ++ "-" ++ repo ++ "-" ++ rev
      some (cache_key, remote, rev)

/-- `_clone_src_gitlab`: parse `gitlab:owner/repo@rev`, percent-encode each
component, and return `(cache_key, remote, rev)`. -/
def _clone_src_gitlab (src : String) : Option (String × String × String) :=
  match takeAfter? "gitlab:".data src.data with
  | none => none
  | some rest =>
    match matchRepoRef rest with
    | none => none
    | some (owner₀, repo₀, rev₀) =>
      let owner := url_quote ⟨owner₀⟩
      let repo := url_quote ⟨repo₀⟩
      let rev := url_quote ⟨rev₀⟩
      let remote := "https://gitlab.com/" ++ owner ++ "/" ++ repo ++ ".git"
      let cache_key := "gitlab-" ++ owner ++ "-" ++ repo ++ "-" ++ rev
      some (cache_key, remote, rev)

/-! ## Clone cache (`_clone_src_cache_get`)

The filesystem state the function consults is the optional cache entry
for the key: `none` when `exists(cached)` is false, `some age` when it
exists with `age = time() - getctime(cached)` seconds.  The two `_log`
calls are recorded as flags, and the `shutil.rmtree` of a stale entry
as the `deleted` flag. -/

/-- Observable outcome of `_clone_src_cache_get`. -/
structure CacheGetResult where
  /-- The remote the caller will fetch from. -/
  remote : String
  /-- The stale cache entry was removed (`shutil.rmtree cached`). -/
  deleted : Bool
  /-- Logged `Using cached version of: ...`. -/
  loggedHit : Bool
  /-- Logged `Downloading: ...`. -/
  loggedDownload : Bool
  deriving Repr, DecidableEq

/-- `_clone_src_cache_get src cache_key remote` with `sources_cache` the
`SOURCES_CACHE` root and `entryAge` the state of the on-disk entry. -/
def _clone_src_cache_get (sources_cache cache_key remote : String)
    (entryAge : Option ℚ) : CacheGetResult :=
  let cached := sources_cache ++ "/" ++ cache_key
  if cache_key ≠ "" then
    match entryAge with
    | some age =>
      if age ≤ 86400 then
        { remote := cached, deleted := false, loggedHit := true, loggedDownload := false }
      else
        { remote := remote, deleted := true, loggedHit := false, loggedDownload := false }
    | none =>
      { remote := remote, deleted := false, loggedHit := false, loggedDownload := true }
  else
    { remote := remote, deleted := false, loggedHit := false, loggedDownload := false }

/-! ## Build invocation (`_nix_build`)

The function reads the module-level feature flags and environment
bindings; these are gathered in `NixEnv`.  The one impure input is
`uuid().hex`, generated freshly inside the stable branch: it is made an
explicit parameter `execId`, so that one call of the Python function
corresponds to one choice of `execId`. -/

/-- Module-level environment of `__main__.py` relevant to `_nix_build`. -/
structure NixEnv where
  /-- `NIX_STABLE = not bool(environ.get("NIX_UNSTABLE"))`. -/
  NIX_STABLE : Bool
  /-- `K8S_COMPAT = bool(environ.get("K8S_COMPAT"))`. -/
  K8S_COMPAT : Bool
  /-- `environ["__MAKES_SRC__"]`. -/
  MAKES_SRC : String
  /-- `environ["__NIX_STABLE__"]`. -/
  NIX_STABLE_BIN : String
  /-- `environ["__NIX_UNSTABLE__"]`. -/
  NIX_UNSTABLE_BIN : String
  deriving Repr, DecidableEq

/-- One record of the decoded cache configuration (`{type, name, url, pubKey}`). -/
structure CacheConf where
  type_ : String
  name : String
  url : String
  pubKey : String
  deriving Repr, DecidableEq

/-- `_if(condition, *value)`. -/
def _if (condition : Bool) (value : List String) : List String :=
  if condition then value else []

/-- `_nix_build(attr=attr, cache=cache, head=head, out=out)`, with the
`uuid().hex` drawn inside the stable branch passed as `execId`. -/
def _nix_build (env : NixEnv) (execId : String) (attr : String)
    (cache : Option (List CacheConf)) (head : String) (out : String) : List String :=
  let substituters :=
    match cache with
    | none => "https://cache.nixos.org"
    | some c => " ".intercalate (c.map (fun e => e.url))
  let trusted_pub_keys :=
    match cache with
    | none => "cache.nixos.org-1:6NCHdD59X431o0gWypbMrAURkbJ16ZPMQFGspcDShjY="
    | some c => " ".intercalate (c.map (fun e => e.pubKey))
  _if env.NIX_STABLE [env.NIX_STABLE_BIN ++ "/bin/nix-build"] ++
  _if (!env.NIX_STABLE) [env.NIX_UNSTABLE_BIN ++ "/bin/nix"] ++
  _if (!env.NIX_STABLE) ["--experimental-features", "flakes nix-command"] ++
  _if (!env.NIX_STABLE) ["build"] ++
  _if env.NIX_STABLE ["--argstr", "makesExecutionId", execId] ++
  _if env.NIX_STABLE ["--argstr", "makesSrc", env.MAKES_SRC] ++
  _if env.NIX_STABLE ["--argstr", "projectSrc", head] ++
  _if env.NIX_STABLE ["--attr", attr] ++
  ["--option", "cores", "0"] ++
  _if (!env.NIX_STABLE) ["--impure"] ++
  ["--option", "narinfo-cache-negative-ttl", "1"] ++
  ["--option", "narinfo-cache-positive-ttl", "1"] ++
  ["--option", "max-jobs", "auto"] ++
  ["--option", "substituters", substituters] ++
  ["--option", "trusted-public-keys", trusted_pub_keys] ++
  ["--option", "sandbox", if env.K8S_COMPAT then "false" else "true"] ++
  _if (out ≠ "") ["--out-link", out] ++
  _if (out = "") ["--no-out-link"] ++
  ["--show-trace"] ++
  _if env.NIX_STABLE [env.MAKES_SRC ++ "/src/evaluator/default.nix"] ++
  _if (!env.NIX_STABLE) [attr]

/-! ## Checkout construction (`_get_head`), local-source case

For a local source, `_clone_src` fetches `HEAD` of the working
repository into a scratch directory and checks it out: afterwards the
scratch directory holds the committed tree at `HEAD` plus the `.git`
metadata created by `git init` / `fetch` / `checkout`.  `_get_head`
then lists the staged (`git diff --cached --name-only`) and modified
(`git ls-files --modified`) paths of the original working directory,
overlays them in sorted order, and removes `.git`.

The model takes the committed tree, the metadata file set, the working
directory file set and the two (successful) path listings as inputs;
a failing `git` subprocess instead produces the `pipeline` error the
program raises as `Error(stage, stdout, stderr)`, while `os.remove` of
a missing file raises an uncaught `FileNotFoundError`. -/

/-- Inputs of `_get_head` for a local source. -/
structure GitState where
  /-- Files of the committed tree at `HEAD` (what `git checkout` materializes). -/
  headTree : FS
  /-- Version-control metadata files (under `.git`) in the scratch checkout. -/
  gitMeta : FS
  /-- Files of the original working directory. -/
  work : FS
  /-- Lines of `git -C src diff --cached --name-only`. -/
  staged : List String
  /-- Lines of `git -C src ls-files --modified`. -/
  modified : List String

/-- How `_get_head` can fail. -/
inductive GetHeadError where
  /-- `raise Error(f"Unable to ...", stdout, stderr)`: the reported pipeline
  failure carrying a stage description and the captured streams. -/
  | pipeline (stage : String)
  /-- `os.remove(dest)` on a path that does not exist: an uncaught
  `FileNotFoundError`, not an `Error`. -/
  | fileNotFound (path : String)
  deriving Repr, DecidableEq

/-- `p` is the `.git` directory or a file inside it. -/
def isGitPath (p : String) : Bool :=
  p = ".git" || (takeAfter? ".git/".data p.data).isSome

/-- `a ≤ b` on code-point lists: Python string comparison. -/
def charListLe : List Char → List Char → Bool
  | [], _ => true
  | _ :: _, [] => false
  | a :: as, b :: bs =>
    if a.toNat < b.toNat then true
    else if b.toNat < a.toNat then false
    else charListLe as bs

/-- Insert into a sorted list. -/
def insertSorted (a : String) : List String → List String
  | [] => [a]
  | b :: rest => if charListLe a.data b.data then a :: b :: rest else b :: insertSorted a rest

/-- `sorted(...)` on strings (insertion sort). -/
def sortStrings : List String → List String
  | [] => []
  | a :: rest => insertSorted a (sortStrings rest)

/-- `sorted(paths)` where `paths` is the `set` union of the staged and the
modified listings. -/
def overlayPaths (st : GitState) : List String :=
  sortStrings ((st.staged ++ st.modified).dedup)

/-- One iteration of the copy loop of `_get_head`:
`dest = join(head, path)`, `path = join(src, path)`; directories being
implicit, `makedirs(dirname(dest))` adds nothing to the file map;
`shutil.copy(path, dest)` when the working file exists, otherwise
`remove(dest)` — which raises when `dest` does not exist either. -/
def overlayStep (work : FS) (checkout : FS) (p : String) : Except GetHeadError FS :=
  match findFile work p with
  | some v => .ok (setFile checkout p v)
  | none =>
    match findFile checkout p with
    | some _ => .ok (eraseFile checkout p)
    | none => .error (.fileNotFound p)

/-- `_get_head(src)` for a local source whose `git` subprocesses succeed with
the listings recorded in `st`: overlay the sorted paths onto the checkout
(initially the committed tree plus the `.git` metadata), then strip `.git`. -/
def _get_head (st : GitState) : Except GetHeadError FS :=
  match (overlayPaths st).foldlM (overlayStep st.work) (st.headTree ++ st.gitMeta) with
  | .error e => .error e
  | .ok final => .ok (final.filter (fun e => !isGitPath e.1))

/-! ## Help screen (`_help_and_exit`) and orchestrator (`cli`)

`_help_and_exit` logs a usage screen and raises `SystemExit(1)` (when
no exception is passed in, which is the case on the unknown-output
path).  The lines it logs are modelled as a list of strings. -/

/-- Output names `_help_and_exit` never lists. -/
def hiddenAttrs : List String := ["__all__", "/secretsForAwsFromEnv/__default__"]

/-- The lines `_help_and_exit src attrs` logs before raising
`SystemExit(1)` (`exc is None` case). -/
def help_lines (src : Option String) (attrs : Option (List String)) : List String :=
  ["Usage: m [SOURCE] [OUTPUT] [ARGS]..."] ++
  (match src with
   | some s => ["", "[SOURCE] is currently: " ++ s]
   | none =>
     ["", "[SOURCE] can be:", "",
      "  A Git repository in the current working directory:", "    $ m .", "",
      "  A GitHub repository and revision (branch, commit or tag):",
      "    $ m github:owner/repo@rev", "",
      "  A GitLab repository and revision (branch, commit or tag):",
      "    $ m gitlab:owner/repo@rev"]) ++
  (match attrs with
   | none => ["", "[OUTPUT] options will be listed when you provide a [SOURCE]"]
   | some as =>
     ["", "[OUTPUT] can be:"] ++
       (as.filter (fun a => a ∉ hiddenAttrs)).map (fun a => "  " ++ a)) ++
  ["", "[ARGS] are passed to the output (if supported)."]

/-- `attr.replace("/", "-")`. -/
def replaceSlashDash (s : String) : String :=
  ⟨s.data.map (fun c => if c = '/' then '-' else c)⟩

/-- `cache_push(cache, out)`: argv of the `cachix push` subprocess it spawns
for the first cache entry of type `cachix` when `CACHIX_AUTH_TOKEN` is in the
environment, `none` when it returns without pushing. -/
def cache_push_argv (tokenPresent : Bool) (cache : List CacheConf) (out : String) :
    Option (List String) :=
  match cache with
  | [] => none
  | c :: rest =>
    if c.type_ = "cachix" && tokenPresent then
      some ["cachix", "push", "-c", "0", c.name, out]
    else cache_push_argv tokenPresent rest out

/-- Observable outcome of `execute_action(args, out)`. -/
structure ActionResult where
  /-- argv of the action subprocess, when the script exists. -/
  argv : Option (List String)
  /-- The `SystemExit(code)` it raises, when the script exists. -/
  exitOverride : Option Int
  deriving Repr, DecidableEq

/-- `execute_action(args, out)`: when `join(out, "makes-action.sh")` exists
it is run as `[action_path, out, *args]` and its exit code is raised as
`SystemExit`; otherwise the function returns normally. -/
def execute_action (args : List String) (out : String) (hasScript : Bool)
    (scriptCode : Int) : ActionResult :=
  let action_path := out ++ "/makes-action.sh"
  if hasScript then
    { argv := some (action_path :: out :: args), exitOverride := some scriptCode }
  else
    { argv := none, exitOverride := none }

/-- Observable outcome of one `cli` invocation. -/
structure CliResult where
  /-- The process exit code (`sys.exit` via `SystemExit`). -/
  exit : Int
  /-- argv of the `cachix push` subprocess, if one was spawned. -/
  pushArgv : Option (List String)
  /-- argv of the action-script subprocess, if one was spawned. -/
  actionArgv : Option (List String)
  /-- The help screen printed, if any. -/
  helpLines : Option (List String)
  deriving Repr, DecidableEq

/-- The tail of `cli` once a `[SOURCE]`, an `[OUTPUT]` and trailing args are
given and `_get_head` / `_get_attrs` / `_get_cache` have succeeded:

* `out_base` is `OUT_BASE`, `src = args[1]`, `attr = args[2]`,
  `args` the trailing arguments, `attrs` the enumerated outputs and
  `cache` the decoded cache configuration;
* `buildCode` is the exit code of the streamed `_nix_build` subprocess;
* `tokenPresent` is `"CACHIX_AUTH_TOKEN" in environ` and `pushCode` the exit
  code of a `cachix push` subprocess (its value is discarded by the code);
* `hasScript` / `scriptCode` describe the conventionally named action script
  of the build output. -/
def cli_requested (out_base src attr : String) (args attrs : List String)
    (cache : List CacheConf) (buildCode : Int) (tokenPresent : Bool) (pushCode : Int)
    (hasScript : Bool) (scriptCode : Int) : CliResult :=
  if attr ∈ attrs then
    let out := out_base ++ "/result" ++ replaceSlashDash attr
    if buildCode = 0 then
      let push := cache_push_argv tokenPresent cache out
      let act := execute_action args out hasScript scriptCode
      { exit := act.exitOverride.getD buildCode
        pushArgv := push
        actionArgv := act.argv
        helpLines := none }
    else
      { exit := buildCode, pushArgv := none, actionArgv := none, helpLines := none }
  else
    { exit := 1
      pushArgv := none
      actionArgv := none
      helpLines := some (help_lines (some src) (some attrs)) }

/-! ## Process-exit cleanup (`ON_EXIT`, `cleanup`, `__main__`)

`ON_EXIT` is the registration list: actions are appended during the
run and `cleanup` iterates over the list.  An action is modelled by an
identifier and whether invoking it raises. -/

/-- A registered cleanup action. -/
structure CleanupAction where
  /-- Identifies the action in the invocation trace. -/
  id : Nat
  /-- Invoking the action raises an exception. -/
  raises : Bool
  deriving Repr, DecidableEq

/-- `action()`: record the invocation in the trace, then possibly raise. -/
def invokeAction (a : CleanupAction) (trace : List Nat) : List Nat × Option String :=
  (trace ++ [a.id],
   if a.raises then some ("cleanup action " ++ toString a.id ++ " failed") else none)

/-- `with suppress(BaseException): body` — any exception of the body is
discarded. -/
def suppressExc (r : List Nat × Option String) : List Nat × Option String :=
  (r.1, none)

/-- `cleanup()`: `for action in ON_EXIT: with suppress(BaseException):
action()`.  The state is the invocation trace plus a pending uncaught
exception; an uncaught exception would abort the loop and propagate. -/
def cleanup (actions : List CleanupAction) : List Nat × Option String :=
  actions.foldl
    (fun st a =>
      match st.2 with
      | some _ => st
      | none => suppressExc (invokeAction a st.1))
    ([], none)

/-- `try: main() finally: cleanup()`: the primary exit code stands unless an
exception escapes the `finally` block, in which case that exception wins. -/
def top_level (primaryExit : Int) (actions : List CleanupAction) : Except String Int :=
  match (cleanup actions).2 with
  | some e => .error e
  | none => .ok primaryExit

/-! ## Decoders

Inverse functions used to prove that percent-encoding and UTF-8
encoding are injective (so that distinct owner/repo splits cannot
produce the same remote URL). -/

/-- Value of an uppercase hex digit. -/
def hexVal (c : Char) : Option Nat :=
  if 0x30 ≤ c.toNat ∧ c.toNat ≤ 0x39 then some (c.toNat - 0x30)
  else if 0x41 ≤ c.toNat ∧ c.toNat ≤ 0x46 then some (c.toNat - 0x41 + 10)
  else none

/-- Helper for `decodeQuoted`: read two hex digits off the front. -/
def splitHex : List Char → Option (Nat × Nat × List Char)
  | h :: l :: rest =>
    match hexVal h, hexVal l with
    | some hv, some lv => some (hv, lv, rest)
    | _, _ => none
  | _ => none

/-- Left inverse of byte-wise `quote_plus` encoding. -/
def decodeQuoted (l : List Char) : Option (List Nat) :=
  match l with
  | [] => some []
  | c :: rest =>
    if c = '%' then
      match splitHex rest with
      | some (hv, lv, _) => (decodeQuoted (rest.drop 2)).map (fun bs => (16 * hv + lv) :: bs)
      | none => none
    else if c = '+' then (decodeQuoted rest).map (fun bs => 32 :: bs)
    else if isUrlSafe c.toNat then (decodeQuoted rest).map (fun bs => c.toNat :: bs)
    else none
termination_by l.length
decreasing_by
  · simp only [List.length_cons, List.length_drop]
    omega
  · simp only [List.length_cons]
    omega
  · simp only [List.length_cons]
    omega

/-- Decode the tail of a two-byte UTF-8 sequence with lead byte `b`. -/
def utf8Decode2 (b : Nat) : List Nat → Option (Nat × List Nat)
  | b1 :: rest =>
    if 0x80 ≤ b1 ∧ b1 < 0xC0 then some ((b - 0xC0) * 0x40 + (b1 - 0x80), rest)
    else none
  | _ => none

/-- Decode the tail of a three-byte UTF-8 sequence with lead byte `b`. -/
def utf8Decode3 (b : Nat) : List Nat → Option (Nat × List Nat)
  | b1 :: b2 :: rest =>
    if (0x80 ≤ b1 ∧ b1 < 0xC0) ∧ (0x80 ≤ b2 ∧ b2 < 0xC0) then
      some ((b - 0xE0) * 0x1000 + (b1 - 0x80) * 0x40 + (b2 - 0x80), rest)
    else none
  | _ => none

/-- Decode the tail of a four-byte UTF-8 sequence with lead byte `b`. -/
def utf8Decode4 (b : Nat) : List Nat → Option (Nat × List Nat)
  | b1 :: b2 :: b3 :: rest =>
    if (0x80 ≤ b1 ∧ b1 < 0xC0) ∧ (0x80 ≤ b2 ∧ b2 < 0xC0) ∧ (0x80 ≤ b3 ∧ b3 < 0xC0) then
      some ((b - 0xF0) * 0x40000 + (b1 - 0x80) * 0x1000 + (b2 - 0x80) * 0x40 + (b3 - 0x80),
        rest)
    else none
  | _ => none

/-- Decode one UTF-8 scalar from a byte list: left inverse of `utf8Bytes`. -/
def utf8DecodeOne : List Nat → Option (Nat × List Nat)
  | [] => none
  | b :: rest =>
    if b < 0x80 then some (b, rest)
    else if b < 0xC0 then none
    else if b < 0xE0 then utf8Decode2 b rest
    else if b < 0xF0 then utf8Decode3 b rest
    else utf8Decode4 b rest

/-! # Theorems -/

/-- Helper: `cache_push` spawns a `cachix push` subprocess iff the credential
is present and some configured entry has backend type `cachix`. -/
theorem cache_push_argv_isSome (t : Bool) (cache : List CacheConf) (out : String) :
    (cache_push_argv t cache out).isSome ↔ (t = true ∧ ∃ c ∈ cache, c.type_ = "cachix") := by
  induction cache with
  | nil => simp [cache_push_argv]
  | cons c rest ih =>
    rw [cache_push_argv]
    by_cases h1 : c.type_ = "cachix"
    · cases t with
      | true => simp [h1]
      | false => simpa [h1] using ih
    · simp only [h1, decide_False, Bool.false_and, Bool.false_eq_true, if_false, ih]
      constructor
      · rintro ⟨ht, e, he, hty⟩
        exact ⟨ht, e, List.mem_cons_of_mem _ he, hty⟩
      · rintro ⟨ht, e, he, hty⟩
        rcases List.mem_cons.mp he with rfl | he'
        · exact absurd hty h1
        · exact ⟨ht, e, he', hty⟩

/-- C4: for a non-empty cache key the lookup returns the cached directory as
the remote exactly when an entry exists with age `≤ 86400` s; a stale entry is
deleted and the original remote returned; an empty key always returns the
original remote unchanged. -/
theorem clone_cache_get_cases (sources_cache cache_key remote : String)
    (entryAge : Option ℚ) :
    (cache_key ≠ "" →
      (∀ age, entryAge = some age → age ≤ 86400 →
        _clone_src_cache_get sources_cache cache_key remote entryAge =
          { remote := sources_cache ++ "/" ++ cache_key, deleted := false,
            loggedHit := true, loggedDownload := false }) ∧
      (∀ age, entryAge = some age → ¬age ≤ 86400 →
        _clone_src_cache_get sources_cache cache_key remote entryAge =
          { remote := remote, deleted := true, loggedHit := false,
            loggedDownload := false }) ∧
      (entryAge = none →
        _clone_src_cache_get sources_cache cache_key remote entryAge =
          { remote := remote, deleted := false, loggedHit := false,
            loggedDownload := true })) ∧
    (cache_key = "" →
      _clone_src_cache_get sources_cache cache_key remote entryAge =
        { remote := remote, deleted := false, loggedHit := false,
          loggedDownload := false }) := by
  constructor
  · intro hk
    refine ⟨?_, ?_, ?_⟩
    · rintro age rfl hle
      simp [_clone_src_cache_get, hk, hle]
    · rintro age rfl hgt
      simp [_clone_src_cache_get, hk, hgt]
    · rintro rfl
      simp [_clone_src_cache_get, hk]
  · rintro rfl
    simp [_clone_src_cache_get]

/-- C4 witness: the four branches at concrete inputs. -/
theorem clone_cache_get_cases_witness :
    (_clone_src_cache_get "/h/.cache/makes/sources" "github-a-b-c" "https://github.com/a/b"
        (some 100) =
      { remote := "/h/.cache/makes/sources/github-a-b-c", deleted := false,
        loggedHit := true, loggedDownload := false }) ∧
    (_clone_src_cache_get "/h/.cache/makes/sources" "github-a-b-c" "https://github.com/a/b"
        (some 100000) =
      { remote := "https://github.com/a/b", deleted := true, loggedHit := false,
        loggedDownload := false }) ∧
    (_clone_src_cache_get "/h/.cache/makes/sources" "github-a-b-c" "https://github.com/a/b"
        none =
      { remote := "https://github.com/a/b", deleted := false, loggedHit := false,
        loggedDownload := true }) ∧
    (_clone_src_cache_get "/h/.cache/makes/sources" "" "https://github.com/a/b" (some 0) =
      { remote := "https://github.com/a/b", deleted := false, loggedHit := false,
        loggedDownload := false }) := by
  refine ⟨?_, ?_, ?_, ?_⟩
  · exact ((clone_cache_get_cases _ _ _ _).1 (by decide)).1 100 rfl (by norm_num)
  · exact ((clone_cache_get_cases _ _ _ _).1 (by decide)).2.1 100000 rfl (by norm_num)
  · exact ((clone_cache_get_cases _ _ _ _).1 (by decide)).2.2 rfl
  · exact (clone_cache_get_cases _ _ _ _).2 rfl

/-- C2: a requested output whose build exits with a nonzero code makes the
process exit with that code, with no cache push attempted and no action
script executed. -/
theorem build_failure_propagates_exit (out_base src attr : String)
    (args attrs : List String) (cache : List CacheConf) (buildCode : Int)
    (tokenPresent : Bool) (pushCode : Int) (hasScript : Bool) (scriptCode : Int)
    (hmem : attr ∈ attrs) (hcode : buildCode ≠ 0) :
    cli_requested out_base src attr args attrs cache buildCode tokenPresent pushCode
        hasScript scriptCode =
      { exit := buildCode, pushArgv := none, actionArgv := none, helpLines := none } := by
  simp [cli_requested, hmem, hcode]

/-- C2 witness: a build exiting 7 yields exit code 7, no push, no action. -/
theorem build_failure_propagates_exit_witness :
    cli_requested "/tmp/o" "." "test" ["--x"] ["test", "lint"] [] 7 true 0 true 3 =
      { exit := 7, pushArgv := none, actionArgv := none, helpLines := none } :=
  build_failure_propagates_exit "/tmp/o" "." "test" ["--x"] ["test", "lint"] [] 7 true 0
    true 3 (by decide) (by decide)

/-- C3: after a successful build, an existing action script is invoked as
`<script> <outputPath> <forwardedArgs...>` and its exit code becomes the
process exit code; with no action script the process exits 0. -/
theorem action_script_chaining (out_base src attr : String)
    (args attrs : List String) (cache : List CacheConf) (tokenPresent : Bool)
    (pushCode : Int) (hasScript : Bool) (scriptCode : Int)
    (hmem : attr ∈ attrs) :
    (hasScript = true →
      (cli_requested out_base src attr args attrs cache 0 tokenPresent pushCode
          hasScript scriptCode).exit = scriptCode ∧
      (cli_requested out_base src attr args attrs cache 0 tokenPresent pushCode
          hasScript scriptCode).actionArgv =
        some ((out_base ++ "/result" ++ replaceSlashDash attr ++ "/makes-action.sh") ::
          (out_base ++ "/result" ++ replaceSlashDash attr) :: args)) ∧
    (hasScript = false →
      (cli_requested out_base src attr args attrs cache 0 tokenPresent pushCode
          hasScript scriptCode).exit = 0 ∧
      (cli_requested out_base src attr args attrs cache 0 tokenPresent pushCode
          hasScript scriptCode).actionArgv = none) := by
  constructor
  · rintro rfl
    constructor <;> simp [cli_requested, hmem, execute_action]
  · rintro rfl
    constructor <;> simp [cli_requested, hmem, execute_action]

/-- C3 witness: a script exiting 3 with forwarded args `["--x"]` yields exit 3
and receives the output path followed by `--x`. -/
theorem action_script_chaining_witness :
    ((cli_requested "/tmp/o" "." "test" ["--x"] ["test"] [] 0 false 0 true 3).exit = 3 ∧
      (cli_requested "/tmp/o" "." "test" ["--x"] ["test"] [] 0 false 0 true 3).actionArgv =
        some ["/tmp/o/resulttest/makes-action.sh", "/tmp/o/resulttest", "--x"]) ∧
    ((cli_requested "/tmp/o" "." "test" ["--x"] ["test"] [] 0 false 0 false 3).exit = 0 ∧
      (cli_requested "/tmp/o" "." "test" ["--x"] ["test"] [] 0 false 0 false 3).actionArgv =
        none) := by
  constructor
  · have h := (action_script_chaining "/tmp/o" "." "test" ["--x"] ["test"] [] false 0
      true 3 (by decide)).1 rfl
    simpa [replaceSlashDash] using h
  · exact (action_script_chaining "/tmp/o" "." "test" ["--x"] ["test"] [] false 0
      false 3 (by decide)).2 rfl

/-- C8: after a successful build, a push is attempted iff a `cachix`-typed
entry is configured and the credential is present; and the exit code does not
depend on the push at all (its configuration, credential, or the push
subprocess's own exit code). -/
theorem cache_push_iff_configured (out_base src attr : String)
    (args attrs : List String) (cache : List CacheConf) (tokenPresent : Bool)
    (pushCode : Int) (hasScript : Bool) (scriptCode : Int)
    (hmem : attr ∈ attrs) :
    ((cli_requested out_base src attr args attrs cache 0 tokenPresent pushCode
        hasScript scriptCode).pushArgv.isSome ↔
      (tokenPresent = true ∧ ∃ c ∈ cache, c.type_ = "cachix")) ∧
    (∀ (cache' : List CacheConf) (tokenPresent' : Bool) (pushCode' : Int),
      (cli_requested out_base src attr args attrs cache' 0 tokenPresent' pushCode'
          hasScript scriptCode).exit =
        (cli_requested out_base src attr args attrs cache 0 tokenPresent pushCode
            hasScript scriptCode).exit) := by
  constructor
  · simpa [cli_requested, hmem] using
      cache_push_argv_isSome tokenPresent cache
        (out_base ++ "/result" ++ replaceSlashDash attr)
  · intro cache' tokenPresent' pushCode'
    simp [cli_requested, hmem]

/-- C8 witness: with a `cachix` entry and the credential a push is spawned;
with the credential absent it is not; the exit code is 0 either way. -/
theorem cache_push_iff_configured_witness :
    ((cli_requested "/tmp/o" "." "t" [] ["t"] [CacheConf.mk "cachix" "n" "u" "k"] 0 true 0
        false 0).pushArgv.isSome ↔
      (true = true ∧ ∃ c ∈ [CacheConf.mk "cachix" "n" "u" "k"], c.type_ = "cachix")) ∧
    (cli_requested "/tmp/o" "." "t" [] ["t"] [] 0 false 5 false 0).exit =
      (cli_requested "/tmp/o" "." "t" [] ["t"] [CacheConf.mk "cachix" "n" "u" "k"] 0 true 0
        false 0).exit := by
  constructor
  · exact (cache_push_iff_configured "/tmp/o" "." "t" [] ["t"]
      [CacheConf.mk "cachix" "n" "u" "k"] true 0 false 0 (by decide)).1
  · exact (cache_push_iff_configured "/tmp/o" "." "t" [] ["t"]
      [CacheConf.mk "cachix" "n" "u" "k"] true 0 false 0 (by decide)).2 [] false 5

/-- C5 counterexample: requesting an output absent from a manifest containing
`__all__` exits 1, but the printed help omits the manifest entry `__all__`, so
the full manifest is not printed. -/
theorem help_full_manifest_counterexample :
    (cli_requested "/tmp/o" "." "b" [] ["__all__", "a"] [] 0 false 0 false 0).exit = 1 ∧
    (cli_requested "/tmp/o" "." "b" [] ["__all__", "a"] [] 0 false 0 false 0).helpLines =
      some (help_lines (some ".") (some ["__all__", "a"])) ∧
    "__all__" ∈ ["__all__", "a"] ∧
    "  a" ∈ help_lines (some ".") (some ["__all__", "a"]) ∧
    "  __all__" ∉ help_lines (some ".") (some ["__all__", "a"]) ∧
    "__all__" ∉ help_lines (some ".") (some ["__all__", "a"]) := by decide

/-- C5 (amended): requesting an unknown output exits 1 and prints the help
screen listing exactly the manifest names outside the internal pair
`__all__` / `/secretsForAwsFromEnv/__default__`; every non-internal name is
printed. -/
theorem help_filtered_manifest (out_base src attr : String) (args attrs : List String)
    (cache : List CacheConf) (buildCode : Int) (tokenPresent : Bool) (pushCode : Int)
    (hasScript : Bool) (scriptCode : Int) (hmem : attr ∉ attrs) :
    (cli_requested out_base src attr args attrs cache buildCode tokenPresent pushCode
        hasScript scriptCode).exit = 1 ∧
    (cli_requested out_base src attr args attrs cache buildCode tokenPresent pushCode
        hasScript scriptCode).helpLines = some (help_lines (some src) (some attrs)) ∧
    help_lines (some src) (some attrs) =
      ["Usage: m [SOURCE] [OUTPUT] [ARGS]...", "",
        "[SOURCE] is currently: " ++ src, "", "[OUTPUT] can be:"] ++
      (attrs.filter (fun a => a ∉ hiddenAttrs)).map (fun a => "  " ++ a) ++
      ["", "[ARGS] are passed to the output (if supported)."] ∧
    (∀ a ∈ attrs, a ∉ hiddenAttrs → ("  " ++ a) ∈ help_lines (some src) (some attrs)) := by
  refine ⟨by simp [cli_requested, hmem], by simp [cli_requested, hmem], by
    simp [help_lines], ?_⟩
  intro a ha hna
  have hmem' : a ∈ attrs.filter (fun a => a ∉ hiddenAttrs) :=
    List.mem_filter.mpr ⟨ha, by simpa using hna⟩
  have : ("  " ++ a) ∈ (attrs.filter (fun a => a ∉ hiddenAttrs)).map (fun a => "  " ++ a) :=
    List.mem_map.mpr ⟨a, hmem', rfl⟩
  simp only [help_lines]
  exact List.mem_append.mpr (Or.inl (List.mem_append.mpr (Or.inr
    (List.mem_append.mpr (Or.inr (by simpa using this))))))

/-- C5 witness: a non-internal name is listed and the exit code is 1. -/
theorem help_filtered_manifest_witness :
    (cli_requested "/tmp/o" "." "b" [] ["__all__", "a"] [] 0 false 0 false 0).exit = 1 ∧
    ("  " ++ "a") ∈ help_lines (some ".") (some ["__all__", "a"]) := by
  have h := help_filtered_manifest "/tmp/o" "." "b" [] ["__all__", "a"] [] 0 false 0
    false 0 (by decide)
  exact ⟨h.1, h.2.2.2 "a" (by decide) (by decide)⟩

/-- C6 counterexample: in stable mode, two invocations of the builder with
identical inputs but distinct freshly drawn execution ids return different
argument lists, so the builder is not pure. -/
theorem nix_build_execid_counterexample :
    _nix_build (NixEnv.mk true false "/makes" "/nixst" "/nixun") "aaaa"
        "config.attrs" none "/checkout" "/tmp/o/result" ≠
      _nix_build (NixEnv.mk true false "/makes" "/nixst" "/nixun") "bbbb"
        "config.attrs" none "/checkout" "/tmp/o/result" := by decide

/-- C6 (amended): the builder is pure up to the freshly generated execution
id: with the execution id fixed the result is a function of the remaining
inputs, and in unstable mode the execution id is not consulted at all. -/
theorem nix_build_deterministic_modulo_execid (env : NixEnv)
    (execId execId' attr : String) (cache : Option (List CacheConf)) (head out : String) :
    (_nix_build env execId attr cache head out =
      _nix_build env execId attr cache head out) ∧
    (env.NIX_STABLE = false →
      _nix_build env execId attr cache head out =
        _nix_build env execId' attr cache head out) := by
  refine ⟨rfl, fun h => ?_⟩
  simp [_nix_build, h, _if]

/-- C6 witness: in unstable mode two distinct execution ids give the same
argument list. -/
theorem nix_build_deterministic_modulo_execid_witness :
    _nix_build (NixEnv.mk false false "/makes" "/nixst" "/nixun") "aaaa"
        "config.attrs" none "/checkout" "" =
      _nix_build (NixEnv.mk false false "/makes" "/nixst" "/nixun") "bbbb"
        "config.attrs" none "/checkout" "" :=
  (nix_build_deterministic_modulo_execid (NixEnv.mk false false "/makes" "/nixst" "/nixun")
    "aaaa" "bbbb" "config.attrs" none "/checkout" "").2 rfl

/-- Helper: the cleanup loop with a clean pending-exception state appends the
action ids to the trace in list order and ends with no pending exception. -/
theorem cleanup_loop_trace (actions : List CleanupAction) (tr : List Nat) :
    actions.foldl
      (fun st a =>
        match st.2 with
        | some _ => st
        | none => suppressExc (invokeAction a st.1))
      (tr, none) = (tr ++ actions.map CleanupAction.id, none) := by
  induction actions generalizing tr with
  | nil => simp
  | cons a rest ih =>
    rw [List.foldl_cons]
    exact (ih (tr ++ [a.id])).trans (by simp)

/-- C9 counterexample: two registered actions are executed first-to-last, not
in reverse-registration order. -/
theorem cleanup_order_counterexample :
    cleanup [CleanupAction.mk 1 false, CleanupAction.mk 2 false] = ([1, 2], none) ∧
    (cleanup [CleanupAction.mk 1 false, CleanupAction.mk 2 false]).1 ≠ [2, 1] := by decide

/-- C9 (amended): at process termination every accumulated cleanup action is
executed, in registration order (first registered first); each action's
failure is caught and discarded independently, so cleanup never changes the
primary exit code. -/
theorem cleanup_forward_order_suppressed (actions : List CleanupAction)
    (primaryExit : Int) :
    (cleanup actions).1 = actions.map CleanupAction.id ∧
    (cleanup actions).2 = none ∧
    top_level primaryExit actions = .ok primaryExit := by
  have h : cleanup actions = (actions.map CleanupAction.id, none) := by
    have := cleanup_loop_trace actions []
    simpa [cleanup] using this
  refine ⟨by rw [h], by rw [h], ?_⟩
  rw [top_level, h]

/-! ## Lemmas about the overlay fold of `_get_head` -/

/-- Helper: a key all of whose entries the filter drops is absent afterwards. -/
theorem findFile_filter_false {fs : FS} {p : String} (f : String × String → Bool)
    (hf : ∀ v, f (p, v) = false) : findFile (fs.filter f) p = none := by
  induction fs with
  | nil => rfl
  | cons e rest ih =>
    obtain ⟨q, v⟩ := e
    by_cases he : q = p
    · subst he
      rw [List.filter, hf v]
      exact ih
    · rw [List.filter]
      cases hq : f (q, v) with
      | true => rw [findFile_cons, if_neg he]; exact ih
      | false => exact ih

/-- Helper: a map whose keys are all `.git` paths has no non-`.git` file. -/
theorem findFile_none_of_gitKeys {fs : FS} {q : String}
    (hk : ∀ e ∈ fs, isGitPath e.1 = true) (hq : isGitPath q = false) :
    findFile fs q = none := by
  induction fs with
  | nil => rfl
  | cons e rest ih =>
    obtain ⟨k, v⟩ := e
    have hkgit : isGitPath k = true := hk (k, v) (List.mem_cons_self _ _)
    have hne : k ≠ q := fun h => by rw [h, hq] at hkgit; cases hkgit
    rw [findFile_cons, if_neg hne]
    exact ih fun e he => hk e (List.mem_cons_of_mem _ he)

/-- Helper: inserting into a sorted list permutes with consing. -/
theorem perm_insertSorted (a : String) (l : List String) :
    List.Perm (insertSorted a l) (a :: l) := by
  induction l with
  | nil => exact List.Perm.refl _
  | cons b rest ih =>
    rw [insertSorted]
    cases h : charListLe a.data b.data with
    | true => simp
    | false =>
      simp only [Bool.false_eq_true, if_false]
      exact (ih.cons b).trans (List.Perm.swap a b rest)

/-- Helper: `sorted` permutes its input. -/
theorem perm_sortStrings (l : List String) : List.Perm (sortStrings l) l := by
  induction l with
  | nil => exact List.Perm.refl _
  | cons a rest ih => exact (perm_insertSorted a (sortStrings rest)).trans (ih.cons a)

/-- Helper: the overlay path list has no duplicates. -/
theorem nodup_overlayPaths (st : GitState) : (overlayPaths st).Nodup :=
  ((perm_sortStrings _).nodup_iff).mpr (List.nodup_dedup _)

/-- Helper: the overlay paths are exactly the staged or modified paths. -/
theorem mem_overlayPaths (st : GitState) (q : String) :
    q ∈ overlayPaths st ↔ q ∈ st.staged ++ st.modified := by
  unfold overlayPaths
  rw [(perm_sortStrings _).mem_iff, List.mem_dedup]

/-- Helper: an overlay step only fails with `FileNotFoundError` on its path. -/
theorem overlayStep_error {work c : FS} {p : String} {e : GetHeadError}
    (h : overlayStep work c p = .error e) : e = .fileNotFound p := by
  unfold overlayStep at h
  cases hw : findFile work p with
  | some v => rw [hw] at h; cases h
  | none =>
    rw [hw] at h
    cases hc : findFile c p with
    | some v => rw [hc] at h; cases h
    | none =>
      rw [hc] at h
      injection h with h
      exact h.symm ▸ rfl

/-- Helper: a successful overlay step leaves other paths untouched. -/
theorem overlayStep_ok_ne {work c0 c1 : FS} {p : String}
    (h : overlayStep work c0 p = .ok c1) {q : String} (hq : p ≠ q) :
    findFile c1 q = findFile c0 q := by
  unfold overlayStep at h
  cases hw : findFile work p with
  | some v =>
    rw [hw] at h
    injection h with h
    rw [← h]
    exact findFile_setFile_ne c0 v hq
  | none =>
    rw [hw] at h
    cases hc : findFile c0 p with
    | some v =>
      rw [hc] at h
      injection h with h
      rw [← h]
      exact findFile_eraseFile_ne c0 hq
    | none => rw [hc] at h; cases h

/-- Helper: a successful overlay step makes the checkout agree with the
working directory on its path (copied if present, deleted if absent). -/
theorem overlayStep_ok_self {work c0 c1 : FS} {p : String}
    (h : overlayStep work c0 p = .ok c1) :
    findFile c1 p = findFile work p := by
  unfold overlayStep at h
  cases hw : findFile work p with
  | some v =>
    rw [hw] at h
    injection h with h
    rw [← h, findFile_setFile_self]
  | none =>
    rw [hw] at h
    cases hc : findFile c0 p with
    | some v =>
      rw [hc] at h
      injection h with h
      rw [← h, findFile_eraseFile_self]
    | none => rw [hc] at h; cases h

/-- Helper: characterization of a successful overlay fold over distinct
paths: untouched paths keep their initial content, overlaid paths agree with
the working directory. -/
theorem foldlM_overlay_findFile {work : FS} (paths : List String) (c0 c : FS)
    (hnd : paths.Nodup) (hok : paths.foldlM (overlayStep work) c0 = .ok c) :
    (∀ q, q ∉ paths → findFile c q = findFile c0 q) ∧
    (∀ q, q ∈ paths → findFile c q = findFile work q) := by
  induction paths generalizing c0 with
  | nil =>
    rw [List.foldlM_nil] at hok
    injection hok with hok
    subst hok
    exact ⟨fun q _ => rfl, fun q hq => absurd hq (List.not_mem_nil q)⟩
  | cons p rest ih =>
    rw [List.foldlM_cons] at hok
    cases hstep : overlayStep work c0 p with
    | error e => rw [hstep] at hok; cases hok
    | ok c1 =>
      rw [hstep] at hok
      have hok' : rest.foldlM (overlayStep work) c1 = .ok c := hok
      obtain ⟨hp, hndr⟩ := List.nodup_cons.mp hnd
      obtain ⟨h1, h2⟩ := ih c1 hndr hok'
      constructor
      · intro q hq
        have hqp : p ≠ q := fun h => hq (h ▸ List.mem_cons_self _ _)
        have hqr : q ∉ rest := fun h => hq (List.mem_cons_of_mem _ h)
        rw [h1 q hqr]
        exact overlayStep_ok_ne hstep hqp
      · intro q hq
        rcases List.mem_cons.mp hq with rfl | hqr
        · rw [h1 q hp]
          exact overlayStep_ok_self hstep
        · exact h2 q hqr

/-- Helper: the overlay fold fails (with an uncaught `FileNotFoundError`) when
some overlay path exists neither in the working directory nor in the initial
checkout. -/
theorem foldlM_overlay_error {work : FS} (paths : List String) (c0 : FS) (p : String)
    (hnd : paths.Nodup) (hp : p ∈ paths) (hw : findFile work p = none)
    (hc : findFile c0 p = none) :
    ∃ q, paths.foldlM (overlayStep work) c0 = .error (GetHeadError.fileNotFound q) := by
  induction paths generalizing c0 with
  | nil => exact absurd hp (List.not_mem_nil p)
  | cons a rest ih =>
    obtain ⟨hna, hndr⟩ := List.nodup_cons.mp hnd
    rw [List.foldlM_cons]
    rcases List.mem_cons.mp hp with rfl | hpr
    · have hstep : overlayStep work c0 p = .error (GetHeadError.fileNotFound p) := by
        unfold overlayStep
        rw [hw, hc]
      rw [hstep]
      exact ⟨p, rfl⟩
    · cases hstep : overlayStep work c0 a with
      | error e =>
        rw [overlayStep_error hstep]
        exact ⟨a, rfl⟩
      | ok c1 =>
        have hap : a ≠ p := fun h => hna (h ▸ hpr)
        have hc1 : findFile c1 p = none := by
          rw [overlayStep_ok_ne hstep hap]
          exact hc
        exact ih c1 hndr hpr hc1

/-- C1: for a local source whose `git` subprocesses succeed, the checkout
`_get_head` returns contains the committed tree at `HEAD` with every staged
or modified path overlaid from the working directory (copied if it still
exists there, deleted otherwise), contains no `.git` metadata, and contains
no untracked file. -/
theorem get_head_local_overlay_spec (st : GitState) (c : FS)
    (hmeta : ∀ e ∈ st.gitMeta, isGitPath e.1 = true)
    (hok : _get_head st = .ok c) (q : String) :
    findFile c q =
      if isGitPath q then none
      else if q ∈ st.staged ++ st.modified then findFile st.work q
      else findFile st.headTree q := by
  unfold _get_head at hok
  cases hfold : (overlayPaths st).foldlM (overlayStep st.work) (st.headTree ++ st.gitMeta)
    with
  | error e => rw [hfold] at hok; cases hok
  | ok final =>
    rw [hfold] at hok
    simp only [] at hok
    injection hok with hok
    subst hok
    cases hg : isGitPath q with
    | true =>
      rw [if_pos rfl]
      exact findFile_filter_false _ fun v => by rw [hg]; rfl
    | false =>
      rw [if_neg (fun h => nomatch h)]
      have hkeep : findFile (final.filter fun e => !isGitPath e.1) q = findFile final q :=
        findFile_filter_ne _ fun v => by rw [hg]; rfl
      rw [hkeep]
      obtain ⟨h1, h2⟩ := foldlM_overlay_findFile (overlayPaths st) _ final
        (nodup_overlayPaths st) hfold
      by_cases hmem : q ∈ st.staged ++ st.modified
      · rw [if_pos hmem]
        exact h2 q ((mem_overlayPaths st q).mpr hmem)
      · rw [if_neg hmem]
        rw [h1 q (fun h => hmem ((mem_overlayPaths st q).mp h))]
        rw [findFile_append, findFile_none_of_gitKeys hmeta hg]
        cases findFile st.headTree q <;> rfl

/-- C1 witness: a staged edit is copied, a modified-then-deleted file is
removed, a committed file survives, metadata and untracked files are absent. -/
theorem get_head_local_overlay_spec_witness :
    (_get_head
        (GitState.mk [("a.txt", "old"), ("b.txt", "keep"), ("gone.txt", "bye")]
          [(".git/HEAD", "ref")]
          [("a.txt", "new"), ("untracked.txt", "u")]
          ["a.txt"] ["gone.txt"]) =
      .ok [("a.txt", "new"), ("b.txt", "keep")]) ∧
    (findFile [("a.txt", "new"), ("b.txt", "keep")] "a.txt" =
      if isGitPath "a.txt" then none
      else if "a.txt" ∈ ["a.txt"] ++ ["gone.txt"] then
        findFile [("a.txt", "new"), ("untracked.txt", "u")] "a.txt"
      else findFile [("a.txt", "old"), ("b.txt", "keep"), ("gone.txt", "bye")] "a.txt") ∧
    (findFile [("a.txt", "new"), ("b.txt", "keep")] "gone.txt" =
      if isGitPath "gone.txt" then none
      else if "gone.txt" ∈ ["a.txt"] ++ ["gone.txt"] then
        findFile [("a.txt", "new"), ("untracked.txt", "u")] "gone.txt"
      else findFile [("a.txt", "old"), ("b.txt", "keep"), ("gone.txt", "bye")] "gone.txt") ∧
    (findFile [("a.txt", "new"), ("b.txt", "keep")] ".git/HEAD" =
      if isGitPath ".git/HEAD" then none
      else if ".git/HEAD" ∈ ["a.txt"] ++ ["gone.txt"] then
        findFile [("a.txt", "new"), ("untracked.txt", "u")] ".git/HEAD"
      else findFile [("a.txt", "old"), ("b.txt", "keep"), ("gone.txt", "bye")] ".git/HEAD") ∧
    (findFile [("a.txt", "new"), ("b.txt", "keep")] "untracked.txt" =
      if isGitPath "untracked.txt" then none
      else if "untracked.txt" ∈ ["a.txt"] ++ ["gone.txt"] then
        findFile [("a.txt", "new"), ("untracked.txt", "u")] "untracked.txt"
      else
        findFile [("a.txt", "old"), ("b.txt", "keep"), ("gone.txt", "bye")]
          "untracked.txt") := by
  have hok : _get_head
      (GitState.mk [("a.txt", "old"), ("b.txt", "keep"), ("gone.txt", "bye")]
        [(".git/HEAD", "ref")]
        [("a.txt", "new"), ("untracked.txt", "u")]
        ["a.txt"] ["gone.txt"]) =
      .ok [("a.txt", "new"), ("b.txt", "keep")] := by rfl
  refine ⟨hok, ?_, ?_, ?_, ?_⟩
  · exact get_head_local_overlay_spec _ _ (by decide) hok "a.txt"
  · exact get_head_local_overlay_spec _ _ (by decide) hok "gone.txt"
  · exact get_head_local_overlay_spec _ _ (by decide) hok ".git/HEAD"
  · exact get_head_local_overlay_spec _ _ (by decide) hok "untracked.txt"

/-- C10: an overlay path that is gone from the working directory and was
never committed (so absent from the checked-out tree) makes `_get_head` fail
with an uncaught `FileNotFoundError` from `os.remove`, not with the
pipeline's reported `Error`. -/
theorem overlay_remove_uncaught_filenotfound (st : GitState) (p : String)
    (hp : p ∈ st.staged) (hw : findFile st.work p = none)
    (hh : findFile st.headTree p = none) (hm : findFile st.gitMeta p = none) :
    ∃ q, _get_head st = .error (GetHeadError.fileNotFound q) := by
  have hmem : p ∈ overlayPaths st :=
    (mem_overlayPaths st p).mpr (List.mem_append_left _ hp)
  have hc0 : findFile (st.headTree ++ st.gitMeta) p = none := by
    rw [findFile_append, hh, hm]
    rfl
  obtain ⟨q, hq⟩ := foldlM_overlay_error (overlayPaths st) (st.headTree ++ st.gitMeta) p
    (nodup_overlayPaths st) hmem hw hc0
  refine ⟨q, ?_⟩
  unfold _get_head
  rw [hq]

/-- C10 witness: a file staged for commit, then deleted, never committed. -/
theorem overlay_remove_uncaught_filenotfound_witness :
    ∃ q, _get_head
        (GitState.mk [("a.txt", "v")] [(".git/HEAD", "ref")] [] ["newfile.txt"] []) =
      .error (GetHeadError.fileNotFound q) :=
  overlay_remove_uncaught_filenotfound
    (GitState.mk [("a.txt", "v")] [(".git/HEAD", "ref")] [] ["newfile.txt"] [])
    "newfile.txt" (by decide) (by decide) (by decide) (by decide)

/-! ## Percent-encoding: decoding and injectivity -/

/-- Helper: a `Nat` below the surrogate range is a valid code point. -/
theorem toNat_ofNat_valid {b : Nat} (h : b < 0xD800) : (Char.ofNat b).toNat = b := by
  rw [Char.ofNat, dif_pos (Or.inl h : Nat.isValidChar b)]
  rfl

/-- Helper: safe bytes are ASCII. -/
theorem isUrlSafe_lt {b : Nat} (h : isUrlSafe b = true) : b < 0x80 := by
  unfold isUrlSafe at h
  simp only [Bool.or_eq_true, Bool.and_eq_true, decide_eq_true_eq] at h
  omega

/-- Helper: the hex digit of a value below 16 decodes back. -/
theorem hexVal_hexDigit : ∀ n < 16, hexVal (hexDigit n) = some n := by decide

/-- Helper: decoding inverts the encoding of one byte at the head. -/
theorem decodeQuoted_quoteByte {b : Nat} (hb : b < 256) (cs : List Char) :
    decodeQuoted (quoteByte b ++ cs) = (decodeQuoted cs).map (fun bs => b :: bs) := by
  unfold quoteByte
  by_cases hs : isUrlSafe b = true
  · rw [if_pos hs]
    have hlt : b < 0xD800 := lt_trans (isUrlSafe_lt hs) (by norm_num)
    have htn : (Char.ofNat b).toNat = b := toNat_ofNat_valid hlt
    have hne1 : Char.ofNat b ≠ '%' := by
      intro h
      have hb37 : b = 37 := by rw [← htn, h]; rfl
      rw [hb37] at hs
      exact absurd hs (by decide)
    have hne2 : Char.ofNat b ≠ '+' := by
      intro h
      have hb43 : b = 43 := by rw [← htn, h]; rfl
      rw [hb43] at hs
      exact absurd hs (by decide)
    show decodeQuoted (Char.ofNat b :: cs) = _
    rw [decodeQuoted, if_neg hne1, if_neg hne2, htn, if_pos hs]
  · rw [if_neg hs]
    by_cases h20 : b = 0x20
    · rw [if_pos h20]
      show decodeQuoted ('+' :: cs) = _
      rw [decodeQuoted, if_neg (by decide), if_pos rfl, h20]
    · rw [if_neg h20]
      show decodeQuoted ('%' :: hexDigit (b / 16) :: hexDigit (b % 16) :: cs) = _
      have hsplit : splitHex (hexDigit (b / 16) :: hexDigit (b % 16) :: cs) =
          some (b / 16, b % 16, cs) := by
        simp only [splitHex, hexVal_hexDigit (b / 16) (by omega),
          hexVal_hexDigit (b % 16) (by omega)]
      rw [decodeQuoted, if_pos rfl, hsplit]
      have harith : 16 * (b / 16) + b % 16 = b := by omega
      simp [harith]

/-- Helper: decoding inverts the byte-wise encoding. -/
theorem decodeQuoted_flatten (bs : List Nat) (hb : ∀ b ∈ bs, b < 256) :
    decodeQuoted ((bs.map quoteByte).flatten) = some bs := by
  induction bs with
  | nil => simp [decodeQuoted]
  | cons b rest ih =>
    rw [List.map_cons, List.flatten_cons,
      decodeQuoted_quoteByte (hb b (List.mem_cons_self _ _)) _,
      ih fun x hx => hb x (List.mem_cons_of_mem _ hx)]
    rfl

/-- Helper: the byte-wise encoding is injective on byte lists. -/
theorem quoteBytes_inj {bs1 bs2 : List Nat} (h1 : ∀ b ∈ bs1, b < 256)
    (h2 : ∀ b ∈ bs2, b < 256)
    (h : (bs1.map quoteByte).flatten = (bs2.map quoteByte).flatten) : bs1 = bs2 := by
  have hd := decodeQuoted_flatten bs1 h1
  rw [h, decodeQuoted_flatten bs2 h2] at hd
  exact (Option.some.inj hd).symm

/-! ## UTF-8 encoding: decoding and injectivity -/

/-- Helper: every character's code point is a valid scalar value. -/
theorem char_isValid (c : Char) :
    c.toNat < 0xD800 ∨ (0xDFFF < c.toNat ∧ c.toNat < 0x110000) := c.valid

/-- Helper: `Char.toNat` is injective. -/
theorem char_toNat_inj {c d : Char} (h : c.toNat = d.toNat) : c = d :=
  Char.eq_of_val_eq (UInt32.ext h)

/-- Helper: UTF-8 code units are bytes. -/
theorem utf8Bytes_lt (c : Char) : ∀ b ∈ utf8Bytes c, b < 256 := by
  have hv := char_isValid c
  unfold utf8Bytes
  by_cases h1 : c.toNat < 0x80
  · rw [if_pos h1]
    intro b hb
    simp only [List.mem_singleton] at hb
    omega
  · rw [if_neg h1]
    by_cases h2 : c.toNat < 0x800
    · rw [if_pos h2]
      intro b hb
      simp only [List.mem_cons, List.mem_singleton, List.not_mem_nil, or_false] at hb
      rcases hb with rfl | rfl <;> omega
    · rw [if_neg h2]
      by_cases h3 : c.toNat < 0x10000
      · rw [if_pos h3]
        intro b hb
        simp only [List.mem_cons, List.not_mem_nil, or_false] at hb
        rcases hb with rfl | rfl | rfl <;> omega
      · rw [if_neg h3]
        intro b hb
        simp only [List.mem_cons, List.not_mem_nil, or_false] at hb
        have hlt : c.toNat < 0x110000 := by omega
        rcases hb with rfl | rfl | rfl | rfl <;> omega

/-- Helper: the UTF-8 encoding of a character is nonempty. -/
theorem utf8Bytes_ne_nil (c : Char) : utf8Bytes c ≠ [] := by
  unfold utf8Bytes
  by_cases h1 : c.toNat < 0x80
  · rw [if_pos h1]; exact List.cons_ne_nil _ _
  · rw [if_neg h1]
    by_cases h2 : c.toNat < 0x800
    · rw [if_pos h2]; exact List.cons_ne_nil _ _
    · rw [if_neg h2]
      by_cases h3 : c.toNat < 0x10000
      · rw [if_pos h3]; exact List.cons_ne_nil _ _
      · rw [if_neg h3]; exact List.cons_ne_nil _ _

/-- Helper: decoding one scalar inverts the encoding at the head. -/
theorem utf8DecodeOne_utf8Bytes (c : Char) (rest : List Nat) :
    utf8DecodeOne (utf8Bytes c ++ rest) = some (c.toNat, rest) := by
  have hv := char_isValid c
  unfold utf8Bytes
  by_cases h1 : c.toNat < 0x80
  · rw [if_pos h1]
    show utf8DecodeOne (c.toNat :: rest) = _
    rw [utf8DecodeOne, if_pos h1]
  · rw [if_neg h1]
    by_cases h2 : c.toNat < 0x800
    · rw [if_pos h2]
      show utf8DecodeOne ((0xC0 + c.toNat / 0x40) :: (0x80 + c.toNat % 0x40) :: rest) = _
      rw [utf8DecodeOne, if_neg (by omega), if_neg (by omega), if_pos (by omega),
        utf8Decode2, if_pos (by constructor <;> omega)]
      have harith : (0xC0 + c.toNat / 0x40 - 0xC0) * 0x40 + (0x80 + c.toNat % 0x40 - 0x80) =
          c.toNat := by omega
      rw [harith]
    · rw [if_neg h2]
      by_cases h3 : c.toNat < 0x10000
      · rw [if_pos h3]
        show utf8DecodeOne ((0xE0 + c.toNat / 0x1000) :: (0x80 + c.toNat / 0x40 % 0x40) ::
          (0x80 + c.toNat % 0x40) :: rest) = _
        rw [utf8DecodeOne, if_neg (by omega), if_neg (by omega), if_neg (by omega),
          if_pos (by omega), utf8Decode3, if_pos (by refine ⟨⟨?_, ?_⟩, ?_, ?_⟩ <;> omega)]
        have harith : (0xE0 + c.toNat / 0x1000 - 0xE0) * 0x1000 +
            (0x80 + c.toNat / 0x40 % 0x40 - 0x80) * 0x40 + (0x80 + c.toNat % 0x40 - 0x80) =
            c.toNat := by omega
        rw [harith]
      · rw [if_neg h3]
        have hlt : c.toNat < 0x110000 := by omega
        show utf8DecodeOne ((0xF0 + c.toNat / 0x40000) :: (0x80 + c.toNat / 0x1000 % 0x40) ::
          (0x80 + c.toNat / 0x40 % 0x40) :: (0x80 + c.toNat % 0x40) :: rest) = _
        rw [utf8DecodeOne, if_neg (by omega), if_neg (by omega), if_neg (by omega),
          if_neg (by omega), utf8Decode4,
          if_pos (by refine ⟨⟨?_, ?_⟩, ⟨?_, ?_⟩, ?_, ?_⟩ <;> omega)]
        have harith : (0xF0 + c.toNat / 0x40000 - 0xF0) * 0x40000 +
            (0x80 + c.toNat / 0x1000 % 0x40 - 0x80) * 0x1000 +
            (0x80 + c.toNat / 0x40 % 0x40 - 0x80) * 0x40 + (0x80 + c.toNat % 0x40 - 0x80) =
            c.toNat := by omega
        rw [harith]

/-- Helper: the concatenated UTF-8 encoding determines the character list. -/
theorem utf8Flatten_inj : ∀ l1 l2 : List Char,
    (l1.map utf8Bytes).flatten = (l2.map utf8Bytes).flatten → l1 = l2 := by
  intro l1
  induction l1 with
  | nil =>
    intro l2 h
    cases l2 with
    | nil => rfl
    | cons c t =>
      rw [List.map_nil, List.flatten_nil, List.map_cons, List.flatten_cons] at h
      cases hu : utf8Bytes c with
      | nil => exact absurd hu (utf8Bytes_ne_nil c)
      | cons b bs => rw [hu] at h; cases h
  | cons c1 t1 ih =>
    intro l2 h
    cases l2 with
    | nil =>
      rw [List.map_nil, List.flatten_nil, List.map_cons, List.flatten_cons] at h
      cases hu : utf8Bytes c1 with
      | nil => exact absurd hu (utf8Bytes_ne_nil c1)
      | cons b bs => rw [hu] at h; cases h
    | cons c2 t2 =>
      rw [List.map_cons, List.flatten_cons, List.map_cons, List.flatten_cons] at h
      have d1 := utf8DecodeOne_utf8Bytes c1 (t1.map utf8Bytes).flatten
      have d2 := utf8DecodeOne_utf8Bytes c2 (t2.map utf8Bytes).flatten
      rw [h, d2] at d1
      injection d1 with d1
      have hnat : c2.toNat = c1.toNat := congrArg Prod.fst d1
      have hrest : (t2.map utf8Bytes).flatten = (t1.map utf8Bytes).flatten :=
        congrArg Prod.snd d1
      rw [char_toNat_inj hnat, ih t2 hrest.symm]

/-- Helper: every byte of `strBytes` is a byte. -/
theorem strBytes_lt (s : String) : ∀ b ∈ strBytes s, b < 256 := by
  intro b hb
  unfold strBytes at hb
  obtain ⟨l, hl, hbl⟩ := List.mem_flatten.mp hb
  obtain ⟨c, _, rfl⟩ := List.mem_map.mp hl
  exact utf8Bytes_lt c b hbl

/-- Helper: the UTF-8 byte sequence determines the string. -/
theorem strBytes_inj {s1 s2 : String} (h : strBytes s1 = strBytes s2) : s1 = s2 := by
  have hd := utf8Flatten_inj s1.data s2.data h
  cases s1
  cases s2
  exact congrArg String.mk hd

/-- Helper: `quote_plus` is injective. -/
theorem url_quote_inj {s1 s2 : String} (h : url_quote s1 = url_quote s2) : s1 = s2 := by
  unfold url_quote at h
  have hd : ((strBytes s1).map quoteByte).flatten = ((strBytes s2).map quoteByte).flatten :=
    congrArg String.data h
  exact strBytes_inj (quoteBytes_inj (strBytes_lt s1) (strBytes_lt s2) hd)

/-! ## The percent-encoded components contain no `/` -/

/-- Helper: hex digits are not `/`. -/
theorem hexDigit_ne_slash : ∀ n < 16, hexDigit n ≠ '/' := by decide

/-- Helper: no character of an encoded byte is `/`. -/
theorem quoteByte_ne_slash {b : Nat} (hb : b < 256) : ∀ c ∈ quoteByte b, c ≠ '/' := by
  unfold quoteByte
  by_cases hs : isUrlSafe b = true
  · rw [if_pos hs]
    intro c hc
    simp only [List.mem_singleton] at hc
    subst hc
    intro h
    have hb47 : b = 47 := by
      rw [← toNat_ofNat_valid (lt_trans (isUrlSafe_lt hs) (by norm_num)), h]
      rfl
    rw [hb47] at hs
    exact absurd hs (by decide)
  · rw [if_neg hs]
    by_cases h20 : b = 0x20
    · rw [if_pos h20]
      intro c hc
      simp only [List.mem_singleton] at hc
      subst hc
      decide
    · rw [if_neg h20]
      intro c hc
      simp only [List.mem_cons, List.not_mem_nil, or_false] at hc
      rcases hc with rfl | rfl | rfl
      · decide
      · exact hexDigit_ne_slash (b / 16) (by omega)
      · exact hexDigit_ne_slash (b % 16) (by omega)

/-- Helper: a percent-encoded component contains no `/`. -/
theorem url_quote_no_slash (s : String) : '/' ∉ (url_quote s).data := by
  intro hmem
  unfold url_quote at hmem
  have hmem' : '/' ∈ ((strBytes s).map quoteByte).flatten := hmem
  obtain ⟨l, hl, hc⟩ := List.mem_flatten.mp hmem'
  obtain ⟨b, hb, rfl⟩ := List.mem_map.mp hl
  exact quoteByte_ne_slash (strBytes_lt s b hb) '/' hc rfl

/-- Helper: splitting at a separator absent from both prefixes is unique. -/
theorem append_sep_inj {a b a' b' : List Char}
    (ha : '/' ∉ a) (ha' : '/' ∉ a') (h : a ++ '/' :: b = a' ++ '/' :: b') :
    a = a' ∧ b = b' := by
  induction a generalizing a' with
  | nil =>
    cases a' with
    | nil => simpa using h
    | cons y ys =>
      rw [List.nil_append, List.cons_append] at h
      injection h with h1 h2
      exact absurd (h1 ▸ List.mem_cons_self y ys) ha'
  | cons x xs ih =>
    cases a' with
    | nil =>
      rw [List.nil_append, List.cons_append] at h
      injection h with h1 h2
      exact absurd (h1 ▸ List.mem_cons_self x xs) ha
    | cons y ys =>
      rw [List.cons_append, List.cons_append] at h
      injection h with h1 h2
      have hxs : '/' ∉ xs := fun hm => ha (List.mem_cons_of_mem _ hm)
      have hys : '/' ∉ ys := fun hm => ha' (List.mem_cons_of_mem _ hm)
      obtain ⟨e1, e2⟩ := ih hxs hys h2
      exact ⟨by rw [h1, e1], e2⟩

/-- Helper: `(s ++ t).data` is the concatenation of the data. -/
theorem string_data_append (s t : String) : (s ++ t).data = s.data ++ t.data := rfl

/-- Helper: two strings with equal data are equal. -/
theorem string_eq_of_data_eq {s t : String} (h : s.data = t.data) : s = t := by
  cases s
  cases t
  exact congrArg String.mk h

/-- Helper: the derived `github` remote URL determines the owner/repo split. -/
theorem github_remote_inj (o r o' r' : String)
    (h : "https://github.com/" ++ url_quote o ++ "/" ++ url_quote r =
      "https://github.com/" ++ url_quote o' ++ "/" ++ url_quote r') :
    o = o' ∧ r = r' := by
  have hd := congrArg String.data h
  rw [string_data_append, string_data_append, string_data_append, string_data_append,
    string_data_append, string_data_append] at hd
  rw [List.append_assoc, List.append_assoc, List.append_assoc, List.append_assoc] at hd
  have hd' := List.append_cancel_left hd
  rw [show ("/" : String).data = ['/'] from rfl] at hd'
  rw [show ∀ x : List Char, ['/'] ++ x = '/' :: x from fun x => rfl,
    show ∀ x : List Char, ['/'] ++ x = '/' :: x from fun x => rfl] at hd'
  obtain ⟨e1, e2⟩ := append_sep_inj (url_quote_no_slash o) (url_quote_no_slash o') hd'
  exact ⟨url_quote_inj (string_eq_of_data_eq e1),
    url_quote_inj (string_eq_of_data_eq e2)⟩

/-- Helper: the derived `gitlab` remote URL determines the owner/repo split. -/
theorem gitlab_remote_inj (o r o' r' : String)
    (h : "https://gitlab.com/" ++ url_quote o ++ "/" ++ url_quote r ++ ".git" =
      "https://gitlab.com/" ++ url_quote o' ++ "/" ++ url_quote r' ++ ".git") :
    o = o' ∧ r = r' := by
  have hd := congrArg String.data h
  rw [string_data_append, string_data_append, string_data_append, string_data_append,
    string_data_append, string_data_append, string_data_append, string_data_append] at hd
  rw [List.append_assoc, List.append_assoc, List.append_assoc, List.append_assoc,
    List.append_assoc, List.append_assoc] at hd
  have hd' := List.append_cancel_left hd
  rw [← List.append_assoc, ← List.append_assoc, ← List.append_assoc,
    ← List.append_assoc] at hd'
  have hd'' := List.append_cancel_right hd'
  rw [show ("/" : String).data = ['/'] from rfl] at hd''
  rw [List.append_assoc, List.append_assoc] at hd''
  rw [show ∀ x : List Char, ['/'] ++ x = '/' :: x from fun x => rfl,
    show ∀ x : List Char, ['/'] ++ x = '/' :: x from fun x => rfl] at hd''
  obtain ⟨e1, e2⟩ := append_sep_inj (url_quote_no_slash o) (url_quote_no_slash o') hd''
  exact ⟨url_quote_inj (string_eq_of_data_eq e1),
    url_quote_inj (string_eq_of_data_eq e2)⟩

/-- C7 counterexample: the sources `github:a-b/c@d` and `github:a/b-c@d` parse
to the distinct splits (owner `a-b`, repo `c`) and (owner `a`, repo `b-c`) yet
derive the same cache key `github-a-b-c-d`, because `-` joins the components
and survives percent-encoding; their remote URLs differ. -/
theorem cache_key_collision_counterexample :
    _clone_src_github "github:a-b/c@d" =
      some ("github-a-b-c-d", "https://github.com/a-b/c", "d") ∧
    _clone_src_github "github:a/b-c@d" =
      some ("github-a-b-c-d", "https://github.com/a/b-c", "d") ∧
    matchRepoRef "a-b/c@d".data = some ("a-b".data, "c".data, "d".data) ∧
    matchRepoRef "a/b-c@d".data = some ("a".data, "b-c".data, "d".data) ∧
    ("a-b", "c") ≠ ("a", "b-c") ∧
    "https://github.com/a-b/c" ≠ "https://github.com/a/b-c" := by decide

/-- C7 (amended): parsing is deterministic, the derived cache key is exactly
`{provider}-{owner}-{repo}-{rev}` with each component percent-encoded
individually, and two different (owner, repo) splits never yield the same
remote URL; but the cache key need not be collision-free because `-` is left
unencoded. -/
theorem parse_key_structure_and_remote_inj :
    (∀ (src : String) (rest owner repo rev : List Char),
      takeAfter? "github:".data src.data = some rest →
      matchRepoRef rest = some (owner, repo, rev) →
      _clone_src_github src = some
        ("github-" ++ url_quote ⟨owner⟩ ++ "-" ++ url_quote ⟨repo⟩ ++ "-" ++
          url_quote ⟨rev⟩,
         "https://github.com/" ++ url_quote ⟨owner⟩ ++ "/" ++ url_quote ⟨repo⟩,
         url_quote ⟨rev⟩)) ∧
    (∀ (src : String) (rest owner repo rev : List Char),
      takeAfter? "gitlab:".data src.data = some rest →
      matchRepoRef rest = some (owner, repo, rev) →
      _clone_src_gitlab src = some
        ("gitlab-" ++ url_quote ⟨owner⟩ ++ "-" ++ url_quote ⟨repo⟩ ++ "-" ++
          url_quote ⟨rev⟩,
         "https://gitlab.com/" ++ url_quote ⟨owner⟩ ++ "/" ++ url_quote ⟨repo⟩ ++ ".git",
         url_quote ⟨rev⟩)) ∧
    (∀ o r o' r' : String,
      "https://github.com/" ++ url_quote o ++ "/" ++ url_quote r =
        "https://github.com/" ++ url_quote o' ++ "/" ++ url_quote r' →
      o = o' ∧ r = r') ∧
    (∀ o r o' r' : String,
      "https://gitlab.com/" ++ url_quote o ++ "/" ++ url_quote r ++ ".git" =
        "https://gitlab.com/" ++ url_quote o' ++ "/" ++ url_quote r' ++ ".git" →
      o = o' ∧ r = r') := by
  refine ⟨?_, ?_, github_remote_inj, gitlab_remote_inj⟩
  · intro src rest owner repo rev h1 h2
    unfold _clone_src_github
    rw [h1]
    simp only [h2]
  · intro src rest owner repo rev h1 h2
    unfold _clone_src_gitlab
    rw [h1]
    simp only [h2]

/-- C7 witness: the structure at `github:x/y@z` and `gitlab:x/y@z`, and the
remote-URL injectivity at concrete splits. -/
theorem parse_key_structure_and_remote_inj_witness :
    (_clone_src_github "github:x/y@z" =
      some ("github-x-y-z", "https://github.com/x/y", "z")) ∧
    (_clone_src_gitlab "gitlab:x/y@z" =
      some ("gitlab-x-y-z", "https://gitlab.com/x/y.git", "z")) ∧
    ("a-b" = "a-b" ∧ "c" = "c") ∧ ("e" = "e" ∧ "f" = "f") := by
  refine ⟨?_, ?_, ?_, ?_⟩
  · have h := parse_key_structure_and_remote_inj.1 "github:x/y@z" "x/y@z".data
      "x".data "y".data "z".data (by decide) (by decide)
    exact h.trans (by decide)
  · have h := parse_key_structure_and_remote_inj.2.1 "gitlab:x/y@z" "x/y@z".data
      "x".data "y".data "z".data (by decide) (by decide)
    exact h.trans (by decide)
  · exact parse_key_structure_and_remote_inj.2.2.1 "a-b" "c" "a-b" "c" rfl
  · exact parse_key_structure_and_remote_inj.2.2.2 "e" "f" "e" "f" rfl

end Makes
